import Mathlib

/-!
Verification development for the `sectors_us_institution_holding` scripts.

The embedding covers the three pieces of decision logic in `src/main.py`:

* the holdings-aggregation block (lines 109-127): per filing, fetch the raw
  infotable, coerce `Value`/`SharesPrnAmount` to integers, group by ticker and
  sum, compute percentage-of-total, and upsert into `form_13f_holdings` with a
  date-reformat fallback on rejection;
* the (commented) filing-sync loop (lines 56-79): per institution, fetch each
  filing with a consecutive-failure counter and threshold, then batch-upsert
  into `form_13f_filing` keyed by `accession_number`;
* the ranking query (lines 84-104): `ROW_NUMBER() OVER (PARTITION BY cik ORDER
  BY filing_date DESC)` filtered to `rank_num <= 2`.

Numeric conventions: pandas float arithmetic is modelled exactly by `PdVal`,
a rational number extended with the non-finite values (`NaN`, `inf`, `-inf`)
that pandas produces on division by zero instead of raising.  The rational
operations are implemented on numerator/denominator via `Rat.divInt` so that
every definition evaluates inside the kernel; the bridge lemmas `qAdd_eq`,
`qMul_eq` and `qDiv_eq` prove that they are ordinary rational `+`, `*`, `/`.
-/

/-- Truncation toward zero: the behaviour of Python `int(...)` and of pandas
`astype(int)` on a rational input. -/
def truncQ (q : ℚ) : ℤ := q.num.tdiv (q.den : ℤ)

/-- Kernel-computable rational addition (see `qAdd_eq`). -/
def qAdd (a b : ℚ) : ℚ := Rat.divInt (a.num * (b.den : ℤ) + b.num * (a.den : ℤ)) ((a.den : ℤ) * (b.den : ℤ))

/-- Kernel-computable rational multiplication (see `qMul_eq`). -/
def qMul (a b : ℚ) : ℚ := Rat.divInt (a.num * b.num) ((a.den : ℤ) * (b.den : ℤ))

/-- Kernel-computable rational division (see `qDiv_eq`). -/
def qDiv (a b : ℚ) : ℚ := Rat.divInt (a.num * (b.den : ℤ)) ((a.den : ℤ) * b.num)

theorem num_eq_mul_den (q : ℚ) : (q.num : ℚ) = q * (q.den : ℚ) := by
  have h : ((q.den : ℚ)) ≠ 0 := by exact_mod_cast q.den_nz
  have h2 := Rat.num_div_den q
  rw [div_eq_iff h] at h2
  exact h2

theorem qAdd_eq (a b : ℚ) : qAdd a b = a + b := by
  have ha : ((a.den : ℚ)) ≠ 0 := by exact_mod_cast a.den_nz
  have hb : ((b.den : ℚ)) ≠ 0 := by exact_mod_cast b.den_nz
  unfold qAdd
  rw [Rat.divInt_eq_div]
  push_cast
  rw [div_eq_iff (mul_ne_zero ha hb), num_eq_mul_den a, num_eq_mul_den b]
  ring

theorem qMul_eq (a b : ℚ) : qMul a b = a * b := by
  have ha : ((a.den : ℚ)) ≠ 0 := by exact_mod_cast a.den_nz
  have hb : ((b.den : ℚ)) ≠ 0 := by exact_mod_cast b.den_nz
  unfold qMul
  rw [Rat.divInt_eq_div]
  push_cast
  rw [div_eq_iff (mul_ne_zero ha hb), num_eq_mul_den a, num_eq_mul_den b]
  ring

theorem qDiv_eq (a b : ℚ) (hb : b ≠ 0) : qDiv a b = a / b := by
  have ha : ((a.den : ℚ)) ≠ 0 := by exact_mod_cast a.den_nz
  have hbn : ((b.num : ℚ)) ≠ 0 :=
    Int.cast_ne_zero.mpr (fun h => hb (Rat.num_eq_zero.mp h))
  unfold qDiv
  rw [Rat.divInt_eq_div]
  push_cast
  rw [div_eq_div_iff (mul_ne_zero ha hbn) hb, num_eq_mul_den a, num_eq_mul_den b]
  ring

/-- A pandas floating-point value: a finite (here: exact rational) number, or
one of the non-finite values produced by division by zero.  pandas never
raises a division-by-zero error; `0/0` is `NaN` and `x/0` is `±inf`. -/
inductive PdVal where
  | num (q : ℚ)
  | nan
  | posInf
  | negInf
deriving DecidableEq

/-- pandas elementwise division.  On finite operands it is rational division,
except that a zero divisor produces `NaN` (for `0/0`) or `±inf` — never an
exception.  Non-finite operands never occur in the embedded pipeline and
propagate `NaN`/`inf` in the IEEE way. -/
def pdDiv : PdVal → PdVal → PdVal
  | .num a, .num b =>
      if b = 0 then (if a = 0 then .nan else if 0 < a then .posInf else .negInf)
      else .num (qDiv a b)
  | .nan, _ => .nan
  | _, .nan => .nan
  | .posInf, .posInf => .nan
  | .posInf, .negInf => .nan
  | .negInf, .posInf => .nan
  | .negInf, .negInf => .nan
  | .posInf, .num b => if b = 0 then .posInf else if 0 < b then .posInf else .negInf
  | .negInf, .num b => if b = 0 then .negInf else if 0 < b then .negInf else .posInf
  | .num _, .posInf => .num 0
  | .num _, .negInf => .num 0

/-- pandas elementwise multiplication on `PdVal`. -/
def pdMul : PdVal → PdVal → PdVal
  | .num a, .num b => .num (qMul a b)
  | .nan, _ => .nan
  | _, .nan => .nan
  | .posInf, .posInf => .posInf
  | .posInf, .negInf => .negInf
  | .negInf, .posInf => .negInf
  | .negInf, .negInf => .posInf
  | .posInf, .num b => if b = 0 then .nan else if 0 < b then .posInf else .negInf
  | .num a, .posInf => if a = 0 then .nan else if 0 < a then .posInf else .negInf
  | .negInf, .num b => if b = 0 then .nan else if 0 < b then .negInf else .posInf
  | .num a, .negInf => if a = 0 then .nan else if 0 < a then .negInf else .posInf

/-- pandas elementwise addition on `PdVal`. -/
def pdAdd : PdVal → PdVal → PdVal
  | .num a, .num b => .num (qAdd a b)
  | .nan, _ => .nan
  | _, .nan => .nan
  | .posInf, .posInf => .posInf
  | .posInf, .negInf => .nan
  | .negInf, .posInf => .nan
  | .negInf, .negInf => .negInf
  | .posInf, .num _ => .posInf
  | .num _, .posInf => .posInf
  | .negInf, .num _ => .negInf
  | .num _, .negInf => .negInf

/-- Sum of a list of pandas values (fold of `pdAdd` from `0`). -/
def pdSum (l : List PdVal) : PdVal := l.foldl pdAdd (.num 0)

theorem pdDiv_num_num (a b : ℚ) (hb : b ≠ 0) : pdDiv (.num a) (.num b) = .num (a / b) := by
  simp [pdDiv, hb, qDiv_eq a b hb]

theorem pdMul_num_num (a b : ℚ) : pdMul (.num a) (.num b) = .num (a * b) := by
  simp [pdMul, qMul_eq]

theorem pdAdd_num_num (a b : ℚ) : pdAdd (.num a) (.num b) = .num (a + b) := by
  simp [pdAdd, qAdd_eq]

/-- One raw position row of a filing's infotable, as delivered by the Filing
Source: columns `Ticker`, `Value`, `SharesPrnAmount` (src/main.py line 110).
`Value` and `SharesPrnAmount` may arrive fractional and are coerced with
`astype(int)` during aggregation. -/
structure RawPos where
  ticker : String
  value : ℚ
  shares : ℚ
deriving DecidableEq

/-- One row of the grouped dataframe after `df.groupby(['Ticker']).sum()`
(src/main.py line 113).  Because the constant `filing_id` column is added on
line 111, *before* the groupby, `.sum()` also sums it, so a group built from
`k` raw positions carries `k * fid` in its `filing_id` column. -/
structure GRow where
  ticker : String
  value : ℤ
  share : ℤ
  filing_id : ℕ
deriving DecidableEq

/-- One record upserted into `form_13f_holdings` (src/main.py lines 115-119). -/
structure HRec where
  symbol : String
  value : ℤ
  share : ℤ
  filing_id : ℕ
  percentage : PdVal
  filing_date : ℕ
deriving DecidableEq

/-- Strict lexicographic order on lists of characters (by Unicode code point),
the order pandas uses on ticker strings. -/
def lexLt : List Char → List Char → Prop
  | [], [] => False
  | [], _ :: _ => True
  | _ :: _, [] => False
  | a :: as, b :: bs => a < b ∨ (a = b ∧ lexLt as bs)

instance lexLt.dec : (as : List Char) → (bs : List Char) → Decidable (lexLt as bs)
  | [], [] => isFalse (fun h => h)
  | [], _ :: _ => isTrue trivial
  | _ :: _, [] => isFalse (fun h => h)
  | a :: as, b :: bs =>
    have : Decidable (lexLt as bs) := lexLt.dec as bs
    inferInstanceAs (Decidable (a < b ∨ (a = b ∧ lexLt as bs)))

/-- Strict lexicographic order on ticker strings. -/
def tkLt (a b : String) : Prop := lexLt a.data b.data

instance : DecidableRel tkLt := fun a b => inferInstanceAs (Decidable (lexLt a.data b.data))

/-- Reflexive lexicographic order on ticker strings; used to model the
ascending group-key sort performed by `groupby`. -/
def tkLe (a b : String) : Prop := tkLt a b ∨ a = b

instance : DecidableRel tkLe := fun a b => inferInstanceAs (Decidable (tkLt a b ∨ a = b))

/-- The grouped row for ticker `t`: sum of the truncated `Value` and
`SharesPrnAmount` columns over the raw positions in the group, and the
(buggily summed) constant `filing_id` column. -/
def groupRow (raw : List RawPos) (fid : ℕ) (t : String) : GRow :=
  let g := raw.filter (fun p => decide (p.ticker = t))
  { ticker := t
    value := (g.map (fun p => truncQ p.value)).sum
    share := (g.map (fun p => truncQ p.shares)).sum
    filing_id := g.length * fid }

/-- `df.groupby(['Ticker']).sum().reset_index()` (src/main.py line 113): one
row per distinct ticker, group keys sorted ascending (pandas `sort=True`
default). -/
def groupby (raw : List RawPos) (fid : ℕ) : List GRow :=
  (List.insertionSort tkLe ((raw.map (fun p => p.ticker)).dedup)).map (groupRow raw fid)

/-- `total_shares = df['Value'].sum()` (src/main.py line 114): the total is
computed from the *grouped* values.  (The code sums the already sorted grouped
column; sorting does not change a sum.) -/
def totalValue (raw : List RawPos) (fid : ℕ) : ℤ :=
  ((groupby raw fid).map (fun g => g.value)).sum

/-- Lines 115-117: add the `percentage` column (`df['Value'] / total_shares *
100`), rename `Ticker`/`Value`/`SharesPrnAmount` to `symbol`/`value`/`share`,
and attach `filing_date`.  Elementwise, hence independent of row order. -/
def addPercentage (total : ℤ) (fd : ℕ) (g : GRow) : HRec :=
  { symbol := g.ticker
    value := g.value
    share := g.share
    filing_id := g.filing_id
    percentage := pdMul (pdDiv (.num (g.value : ℚ)) (.num (total : ℚ))) (.num 100)
    filing_date := fd }

/-- Descending order on the grouped `Value` column. -/
def valueDesc (a b : GRow) : Prop := b.value ≤ a.value

instance : DecidableRel valueDesc := fun a b => inferInstanceAs (Decidable (b.value ≤ a.value))

instance : IsTotal GRow valueDesc := ⟨fun a b => le_total b.value a.value⟩

instance : IsTrans GRow valueDesc := ⟨fun _ _ _ h1 h2 => le_trans h2 h1⟩

/-- The holdings-aggregation block of src/main.py (lines 110-117) for one
filing, as a function from the raw infotable to the records sent to
`batch_upsert`.  `sort_values('Value', ascending=False)` uses pandas' default
unstable quicksort, which only guarantees a value-descending permutation; this
canonical function realises one admissible outcome via a stable sort, and
`aggOutcome` below captures exactly what the code guarantees.  The raw-level
pre-sort on line 110 only permutes rows before grouping and cannot change any
grouped sum, so it is not modelled separately. -/
def aggregate_holdings (raw : List RawPos) (fid : ℕ) (fd : ℕ) : List HRec :=
  (List.insertionSort valueDesc (groupby raw fid)).map (addPercentage (totalValue raw fid) fd)

/-- Sortedness guarantee of `sort_values('Value', ascending=False)`: the
output is value-descending. -/
def SortedByValueDesc (l : List HRec) : Prop := l.Pairwise (fun a b => b.value ≤ a.value)

/-- Every output the aggregation code can produce for one filing: a
value-descending permutation of the grouped-and-percentaged records.  The
relative order of equal-value records is unspecified because pandas'
default sort kind (quicksort) is not stable. -/
def aggOutcome (raw : List RawPos) (fid fd : ℕ) (out : List HRec) : Prop :=
  out.Perm (aggregate_holdings raw fid fd) ∧ SortedByValueDesc out

/-- The tie-break property claimed by the spec: records with equal `value`
appear in ascending ticker order. -/
def TieAsc (l : List HRec) : Prop :=
  l.Pairwise (fun a b => a.value = b.value → tkLt a.symbol b.symbol)

/-- A single all-zero position: a non-empty filing whose total value is 0. -/
def rawZero : List RawPos := [{ ticker := "AAPL", value := 0, shares := 0 }]

/-- The record the pipeline produces for `rawZero`. -/
def hrecZero : HRec :=
  { symbol := "AAPL", value := 0, share := 0, filing_id := 7, percentage := PdVal.nan, filing_date := 99 }

/-- Claim C1, counterexample: on a non-empty all-zero filing the code computes
`df['Value'] / 0 * 100`, which in pandas is `NaN` (0/0), **not** `0` as the
claim states. -/
theorem c1_zero_total_counterexample :
    (aggregate_holdings rawZero 7 99).map (fun r => r.percentage) = [PdVal.nan] ∧
    PdVal.nan ≠ PdVal.num 0 := by
  decide

/-- Claim C1 (amended): for every holdings input whose aggregated total value
is 0, `aggregate_holdings` never raises a division-by-zero fault (the division
is total and yields non-finite floats); an empty input yields no records; and
each record's `percentage` is `NaN` when its value is 0 (and `±inf` when
nonzero) — not `0`. -/
theorem c1_zero_total_percentages (raw : List RawPos) (fid fd : ℕ)
    (h : totalValue raw fid = 0) :
    aggregate_holdings [] fid fd = [] ∧
    ∀ r ∈ aggregate_holdings raw fid fd,
      r.percentage = (if r.value = 0 then PdVal.nan
        else if 0 < r.value then PdVal.posInf else PdVal.negInf) := by
  constructor
  · rfl
  · intro r hr
    rcases List.mem_map.mp hr with ⟨g, hg, hrg⟩
    subst hrg
    simp only [addPercentage, h]
    rcases lt_trichotomy g.value 0 with hneg | hzero | hpos
    · have hq : ((g.value : ℤ) : ℚ) < 0 := by exact_mod_cast hneg
      simp [pdDiv, pdMul, hq.ne, not_lt.mpr hq.le, hneg.ne, not_lt.mpr hneg.le]
    · simp [pdDiv, pdMul, hzero]
    · have hq : (0 : ℚ) < ((g.value : ℤ) : ℚ) := by exact_mod_cast hpos
      simp [pdDiv, pdMul, hq.ne', hq, hpos.ne', hpos]

/-- Witness for `c1_zero_total_percentages` at the concrete input `rawZero`. -/
theorem c1_zero_total_percentages_witness :
    hrecZero.percentage = (if hrecZero.value = 0 then PdVal.nan
      else if 0 < hrecZero.value then PdVal.posInf else PdVal.negInf) :=
  (c1_zero_total_percentages rawZero 7 99 (by decide)).2 hrecZero (by decide)

/-- The grouping example from the spec: AAPL appears twice, MSFT once. -/
def exampleRaw : List RawPos :=
  [ { ticker := "AAPL", value := 100, shares := 10 }
  , { ticker := "AAPL", value := 50, shares := 5 }
  , { ticker := "MSFT", value := 200, shares := 20 } ]

/-- Claim C2, evaluated at the failing input (filing_id 7, the spec's grouping
example): the constant `filing_id` column is added *before*
`groupby(...).sum()`, so it is summed per group — AAPL's record carries
`filing_id = 14`, not 7.  The percentages of the records actually sharing
`filing_id = 7` sum to `400/7 ≈ 57.14`, not 100 (the percentages of the whole
output still sum to exactly 100, confirming the intended invariant would hold
were `filing_id` attached unsummed). -/
theorem c2_percentage_filing_id_bug :
    pdSum (((aggregate_holdings exampleRaw 7 99).filter
        (fun r => decide (r.filing_id = 7))).map (fun r => r.percentage)) = PdVal.num (mkRat 400 7) ∧
    PdVal.num (mkRat 400 7) ≠ PdVal.num 100 ∧
    (aggregate_holdings exampleRaw 7 99).map (fun r => r.filing_id) = [7, 14] ∧
    pdSum ((aggregate_holdings exampleRaw 7 99).map (fun r => r.percentage)) = PdVal.num 100 := by
  decide

/-- The MSFT record produced for `exampleRaw` with filing_id 7, date 99. -/
def hrecMSFT : HRec :=
  { symbol := "MSFT", value := 200, share := 20, filing_id := 7
    percentage := PdVal.num (mkRat 400 7), filing_date := 99 }

/-- Claim C3: `aggregate_holdings` groups raw positions by ticker, sums
`value` and `shares` within each group, computes the total from the grouped
values, and sets each group's percentage to `value / total * 100`; on the
spec's example input it yields exactly the two records `MSFT (200, 20)` and
`AAPL (150, 15)` with percentages `400/7 ≈ 57.143` and `300/7 ≈ 42.857`. -/
theorem c3_grouping_correctness :
    (∀ raw : List RawPos, ∀ fid fd : ℕ, ∀ r ∈ aggregate_holdings raw fid fd,
        r.value = ((raw.filter (fun p => decide (p.ticker = r.symbol))).map (fun p => truncQ p.value)).sum ∧
        r.share = ((raw.filter (fun p => decide (p.ticker = r.symbol))).map (fun p => truncQ p.shares)).sum ∧
        r.percentage = pdMul (pdDiv (.num (r.value : ℚ)) (.num ((totalValue raw fid : ℤ) : ℚ))) (.num 100)) ∧
    (aggregate_holdings exampleRaw 7 99).map (fun r => (r.symbol, r.value, r.share, r.percentage)) =
      [("MSFT", 200, 20, PdVal.num (mkRat 400 7)), ("AAPL", 150, 15, PdVal.num (mkRat 300 7))] ∧
    |mkRat 400 7 - mkRat 57143 1000| < mkRat 1 1000 ∧
    |mkRat 300 7 - mkRat 42857 1000| < mkRat 1 1000 := by
  refine ⟨?_, by decide, ?_, ?_⟩
  · intro raw fid fd r hr
    rcases List.mem_map.mp hr with ⟨g, hg, hrg⟩
    subst hrg
    have hg2 : g ∈ groupby raw fid :=
      ((List.perm_insertionSort valueDesc (groupby raw fid)).mem_iff).mp hg
    rcases List.mem_map.mp hg2 with ⟨t, _, hgt⟩
    subst hgt
    exact ⟨rfl, rfl, rfl⟩
  · rw [Rat.mkRat_eq_div, Rat.mkRat_eq_div, Rat.mkRat_eq_div, abs_sub_lt_iff]
    norm_num
  · rw [Rat.mkRat_eq_div, Rat.mkRat_eq_div, Rat.mkRat_eq_div, abs_sub_lt_iff]
    norm_num

/-- Witness for the universally quantified part of `c3_grouping_correctness`,
instantiated at the example input and its MSFT output record. -/
theorem c3_grouping_correctness_witness :
    hrecMSFT.value = ((exampleRaw.filter (fun p => decide (p.ticker = hrecMSFT.symbol))).map (fun p => truncQ p.value)).sum ∧
    hrecMSFT.share = ((exampleRaw.filter (fun p => decide (p.ticker = hrecMSFT.symbol))).map (fun p => truncQ p.shares)).sum ∧
    hrecMSFT.percentage = pdMul (pdDiv (.num (hrecMSFT.value : ℚ)) (.num ((totalValue exampleRaw 7 : ℤ) : ℚ))) (.num 100) :=
  c3_grouping_correctness.1 exampleRaw 7 99 hrecMSFT (by decide)

instance (l : List HRec) : Decidable (SortedByValueDesc l) :=
  inferInstanceAs (Decidable (l.Pairwise (fun a b : HRec => b.value ≤ a.value)))

instance (l : List HRec) : Decidable (TieAsc l) :=
  inferInstanceAs (Decidable (l.Pairwise (fun a b : HRec => a.value = b.value → tkLt a.symbol b.symbol)))

/-- Two tickers with equal grouped `Value`. -/
def rawTie : List RawPos :=
  [ { ticker := "B", value := 5, shares := 1 }
  , { ticker := "A", value := 5, shares := 1 } ]

/-- The grouped records for `rawTie`. -/
def hrecTieA : HRec :=
  { symbol := "A", value := 5, share := 1, filing_id := 3, percentage := PdVal.num 50, filing_date := 4 }

def hrecTieB : HRec :=
  { symbol := "B", value := 5, share := 1, filing_id := 3, percentage := PdVal.num 50, filing_date := 4 }

/-- A value-descending output for `rawTie` whose equal-value records are in
*descending* ticker order. -/
def cexOutTie : List HRec := [hrecTieB, hrecTieA]

theorem cexOutTie_perm : cexOutTie.Perm (aggregate_holdings rawTie 3 4) := by
  have h : aggregate_holdings rawTie 3 4 = [hrecTieA, hrecTieB] := by decide
  rw [h]
  exact List.Perm.swap _ _ _

/-- Claim C8, counterexample: `sort_values('Value', ascending=False)` uses
pandas' default unstable quicksort, so the code only guarantees *some*
value-descending permutation; `cexOutTie` is such an admissible output for
`rawTie`, and its equal-value tie is **not** in ascending ticker order. -/
theorem c8_tie_order_counterexample :
    aggOutcome rawTie 3 4 cexOutTie ∧ ¬ TieAsc cexOutTie :=
  ⟨⟨cexOutTie_perm, by decide⟩, by decide⟩

/-- Claim C8 (amended): every output the aggregation block can produce is
sorted descending by `value` and is a permutation of the grouped records; but
the order among equal-value records is unspecified (the sort kind is not
stable), so the ticker-ascending tie-break is not guaranteed.  The canonical
embedding itself is one admissible outcome. -/
theorem c8_value_sorted (raw : List RawPos) (fid fd : ℕ) (out : List HRec)
    (h : aggOutcome raw fid fd out) :
    SortedByValueDesc out ∧
    out.Perm ((groupby raw fid).map (addPercentage (totalValue raw fid) fd)) ∧
    aggOutcome raw fid fd (aggregate_holdings raw fid fd) := by
  refine ⟨h.2, h.1.trans ((List.perm_insertionSort valueDesc (groupby raw fid)).map _), List.Perm.refl _, ?_⟩
  have hs := List.sorted_insertionSort valueDesc (groupby raw fid)
  unfold SortedByValueDesc aggregate_holdings
  rw [List.pairwise_map]
  exact hs

/-- Witness for `c8_value_sorted` at the concrete outcome `cexOutTie`. -/
theorem c8_value_sorted_witness :
    SortedByValueDesc cexOutTie ∧
    cexOutTie.Perm ((groupby rawTie 3).map (addPercentage (totalValue rawTie 3) 4)) ∧
    aggOutcome rawTie 3 4 (aggregate_holdings rawTie 3 4) :=
  c8_value_sorted rawTie 3 4 cexOutTie ⟨cexOutTie_perm, by decide⟩

/-- Parsed fields of one 13F-HR filing as exposed by the Filing Source
(src/main.py lines 61-68): accession number, report period, filing date and
the summary-page totals (which the code passes through `int(...)`). -/
structure ParsedF where
  accession_no : String
  report_period : String
  filing_date : String
  total_value : ℚ
  total_holdings : ℚ
deriving DecidableEq

/-- One record appended to `filing_data` (src/main.py lines 62-68). -/
structure Filing where
  cik : ℕ
  accession_number : String
  report_period : String
  filing_date : String
  total_value : ℤ
  total_holding : ℤ
deriving DecidableEq

/-- The inner filing loop of the commented sync block (src/main.py lines
58-76), over a list of fetch outcomes for one institution (`none` models a
fetch/parse failure caught by the bare `except`).  The second argument is the
entering value of `consecutive_failures`.  On success the record is appended
and the counter resets to 0; on failure the counter increments and, once it
exceeds 2, the loop breaks.  Returns `(filing_data, final counter, number of
fetch attempts made)`. -/
def collectFilings (cik : ℕ) : List (Option ParsedF) → ℕ → List Filing × ℕ × ℕ
  | [], cf => ([], cf, 0)
  | o :: rest, cf =>
    match o with
    | some d =>
      let p := collectFilings cik rest 0
      ({ cik := cik, accession_number := d.accession_no, report_period := d.report_period,
         filing_date := d.filing_date, total_value := truncQ d.total_value,
         total_holding := truncQ d.total_holdings } :: p.1, p.2.1, p.2.2 + 1)
    | none =>
      if cf + 1 > 2 then ([], cf + 1, 1)
      else
        let p := collectFilings cik rest (cf + 1)
        (p.1, p.2.1, p.2.2 + 1)

/-- Upsert of a single record into a list-modelled table: rows whose conflict
key matches are overwritten in place, otherwise the record is appended (the
Data Store's upsert-by-conflict-key semantics, spec section 6). -/
def upsert1 {R K : Type} [DecidableEq K] (key : R → K) (tbl : List R) (r : R) : List R :=
  if tbl.any (fun x => decide (key x = key r)) then
    tbl.map (fun x => if key x = key r then r else x)
  else tbl ++ [r]

/-- `batch_upsert(target_table, records, conflict_columns)`: upsert each
record in order.  An empty batch is a no-op. -/
def batch_upsert {R K : Type} [DecidableEq K] (key : R → K) (tbl : List R) (recs : List R) : List R :=
  recs.foldl (upsert1 key) tbl

/-- Conflict key of `form_13f_filing`: `accession_number` (src/main.py line 78). -/
def fKey (f : Filing) : String := f.accession_number

/-- The institution loop (src/main.py lines 56-79).  Faithful to the code,
`consecutive_failures` is initialised once *before* the loop (line 56), so its
value is threaded from one institution to the next; after each institution the
collected batch is upserted keyed by `accession_number`. -/
def syncFrom (src : ℕ → List (Option ParsedF)) : List ℕ → ℕ → List Filing → List Filing
  | [], _, tbl => tbl
  | cik :: rest, cf, tbl =>
    let p := collectFilings cik (src cik) cf
    syncFrom src rest p.2.1 (batch_upsert fKey tbl p.1)

/-- `sync_filings`: one full sync run over the given institutions, with the
failure counter starting at 0. -/
def sync_filings (src : ℕ → List (Option ParsedF)) (ciks : List ℕ) (tbl : List Filing) : List Filing :=
  syncFrom src ciks 0 tbl

/-- Number of rows of the list-modelled `form_13f_filing` table. -/
def rowCount (tbl : List Filing) : ℕ := tbl.length

/-- Two well-formed filings for institution 2. -/
def pfA : ParsedF :=
  { accession_no := "acc-1", report_period := "2024-Q1", filing_date := "2024-05-01"
    total_value := 10, total_holdings := 1 }

def pfB : ParsedF :=
  { accession_no := "acc-2", report_period := "2024-Q2", filing_date := "2024-08-01"
    total_value := 20, total_holdings := 2 }

def filingA : Filing :=
  { cik := 2, accession_number := "acc-1", report_period := "2024-Q1"
    filing_date := "2024-05-01", total_value := 10, total_holding := 1 }

def filingB : Filing :=
  { cik := 2, accession_number := "acc-2", report_period := "2024-Q2"
    filing_date := "2024-08-01", total_value := 20, total_holding := 2 }

/-- Fetch outcomes: institution 1 has two filings, both failing to parse;
institution 2 has three filings, the first failing and the other two fine. -/
def srcCX : ℕ → List (Option ParsedF) :=
  fun c => if c = 1 then [none, none] else if c = 2 then [none, some pfA, some pfB] else []

/-- Claim C4, code bug: the consecutive-failure counter is **not**
per-institution.  `consecutive_failures = 0` stands once before the
institution loop, so institution 1's two failures leave the counter at 2, and
institution 2's single failure then pushes it past the threshold: institution
2 is skipped and its two parseable filings are lost (a run over institution 2
alone stores both).  The only reset is on a successful fetch, as the code
shows. -/
theorem c4_failure_counter_shared :
    (collectFilings 1 [none, none] 0).2.1 = 2 ∧
    (collectFilings 2 [none, some pfA, some pfB] 2).1 = [] ∧
    (collectFilings 2 [none, some pfA, some pfB] 0).1 = [filingA, filingB] ∧
    sync_filings srcCX [1, 2] [] = [] ∧
    sync_filings srcCX [2] [] = [filingA, filingB] := by
  decide

/-- Three consecutive failures for institution 2 (and two for institution 1). -/
def srcC5 : ℕ → List (Option ParsedF) :=
  fun c => if c = 1 then [none, none] else [none, none, none]

/-- Claim C5, code bug: with a fresh counter the orchestrator indeed stops an
always-failing institution right after its 3rd consecutive failure (3 fetch
attempts, also when more filings are available) and proceeds without raising;
but because the counter is run-wide (claim C4), an institution entered with a
carried-over counter of 2 is cut off after a **single** failure, not its 3rd. -/
theorem c5_threshold_carryover :
    (collectFilings 2 [none, none, none] 0).2.2 = 3 ∧
    (collectFilings 2 [none, none, none, none] 0).2.2 = 3 ∧
    (collectFilings 2 [none, none, none] 2).2.2 = 1 ∧
    sync_filings srcC5 [1, 2] [] = [] := by
  decide

theorem mem_key_upsert1 {R K : Type} [DecidableEq K] (key : R → K) (tbl : List R) (r : R) (k : K) :
    k ∈ (upsert1 key tbl r).map key ↔ k ∈ tbl.map key ∨ k = key r := by
  unfold upsert1
  split
  case isTrue h =>
    rw [List.any_eq_true] at h
    rcases h with ⟨y, hy, hky⟩
    rw [decide_eq_true_eq] at hky
    rw [List.map_map]
    simp only [List.mem_map, Function.comp]
    constructor
    · rintro ⟨x, hx, hkx⟩
      by_cases hxr : key x = key r
      · rw [if_pos hxr] at hkx
        exact Or.inr hkx.symm
      · rw [if_neg hxr] at hkx
        exact Or.inl ⟨x, hx, hkx⟩
    · rintro (⟨x, hx, hkx⟩ | rfl)
      · by_cases hxr : key x = key r
        · exact ⟨y, hy, by rw [if_pos hky, ← hxr, hkx]⟩
        · exact ⟨x, hx, by rw [if_neg hxr]; exact hkx⟩
      · exact ⟨y, hy, by rw [if_pos hky]⟩
  case isFalse h =>
    rw [List.map_append, List.mem_append]
    simp [List.mem_map]

theorem length_upsert1_of_mem {R K : Type} [DecidableEq K] (key : R → K) (tbl : List R) (r : R)
    (h : key r ∈ tbl.map key) : (upsert1 key tbl r).length = tbl.length := by
  rcases List.mem_map.mp h with ⟨x, hx, hkx⟩
  unfold upsert1
  rw [if_pos (List.any_eq_true.mpr ⟨x, hx, decide_eq_true hkx⟩), List.length_map]

theorem mem_key_batch_upsert {R K : Type} [DecidableEq K] (key : R → K) (recs : List R) :
    ∀ (tbl : List R) (k : K),
      k ∈ (batch_upsert key tbl recs).map key ↔ k ∈ tbl.map key ∨ k ∈ recs.map key := by
  induction recs with
  | nil => intro tbl k; simp [batch_upsert]
  | cons r rest ih =>
    intro tbl k
    show k ∈ (batch_upsert key (upsert1 key tbl r) rest).map key ↔ _
    rw [ih, mem_key_upsert1, List.map_cons, List.mem_cons]
    exact or_assoc

theorem length_batch_upsert_of_subset {R K : Type} [DecidableEq K] (key : R → K) (recs : List R) :
    ∀ (tbl : List R), (∀ k ∈ recs.map key, k ∈ tbl.map key) →
      (batch_upsert key tbl recs).length = tbl.length := by
  induction recs with
  | nil => intro tbl _; rfl
  | cons r rest ih =>
    intro tbl h
    have hr : key r ∈ tbl.map key := h (key r) (by simp)
    show (batch_upsert key (upsert1 key tbl r) rest).length = tbl.length
    rw [ih (upsert1 key tbl r) (fun k hk => (mem_key_upsert1 key tbl r k).mpr (Or.inl (h k (by simp [hk])))),
      length_upsert1_of_mem key tbl r hr]

/-- The conflict keys of all batches one sync run upserts, given the entering
counter value; independent of the table contents. -/
def producedKeys (src : ℕ → List (Option ParsedF)) : List ℕ → ℕ → List String
  | [], _ => []
  | cik :: rest, cf =>
    (collectFilings cik (src cik) cf).1.map fKey ++ producedKeys src rest (collectFilings cik (src cik) cf).2.1

theorem mem_key_syncFrom (src : ℕ → List (Option ParsedF)) (ciks : List ℕ) :
    ∀ (cf : ℕ) (tbl : List Filing) (k : String),
      k ∈ (syncFrom src ciks cf tbl).map fKey ↔ k ∈ tbl.map fKey ∨ k ∈ producedKeys src ciks cf := by
  induction ciks with
  | nil => intro cf tbl k; simp [syncFrom, producedKeys]
  | cons cik rest ih =>
    intro cf tbl k
    show k ∈ (syncFrom src rest _ (batch_upsert fKey tbl _)).map fKey ↔ _
    rw [ih, mem_key_batch_upsert]
    show _ ↔ k ∈ tbl.map fKey ∨ k ∈ (collectFilings cik (src cik) cf).1.map fKey ++ producedKeys src rest (collectFilings cik (src cik) cf).2.1
    rw [List.mem_append]
    tauto

theorem length_syncFrom_of_subset (src : ℕ → List (Option ParsedF)) (ciks : List ℕ) :
    ∀ (cf : ℕ) (tbl : List Filing), (∀ k ∈ producedKeys src ciks cf, k ∈ tbl.map fKey) →
      (syncFrom src ciks cf tbl).length = tbl.length := by
  induction ciks with
  | nil => intro cf tbl _; rfl
  | cons cik rest ih =>
    intro cf tbl h
    have hbatch : ∀ k ∈ (collectFilings cik (src cik) cf).1.map fKey, k ∈ tbl.map fKey := by
      intro k hk
      exact h k (by unfold producedKeys; rw [List.mem_append]; exact Or.inl hk)
    show (syncFrom src rest _ (batch_upsert fKey tbl _)).length = tbl.length
    rw [ih _ (batch_upsert fKey tbl (collectFilings cik (src cik) cf).1) ?_,
      length_batch_upsert_of_subset fKey _ tbl hbatch]
    intro k hk
    rw [mem_key_batch_upsert]
    exact Or.inl (h k (by unfold producedKeys; rw [List.mem_append]; exact Or.inr hk))

/-- Claim C9: running `sync_filings` twice with unchanged source data leaves
`form_13f_filing` with the same row count as running it once — the second
run's batches are identical and every record's `accession_number` conflict key
is already present, so each upsert overwrites in place and appends nothing. -/
theorem c9_sync_idempotent (src : ℕ → List (Option ParsedF)) (ciks : List ℕ) (tbl : List Filing) :
    rowCount (sync_filings src ciks (sync_filings src ciks tbl)) = rowCount (sync_filings src ciks tbl) := by
  unfold rowCount sync_filings
  apply length_syncFrom_of_subset
  intro k hk
  exact (mem_key_syncFrom src ciks 0 tbl k).mpr (Or.inr hk)

/-- One row of the ranking query's result (src/main.py lines 95-103):
`filing_id, cik, filing_date, accession_number`. -/
structure QRow where
  filing_id : ℕ
  cik : ℕ
  filing_date : ℕ
  accession_number : String
deriving DecidableEq

def mkQ (i d : ℕ) (a : String) : QRow :=
  { filing_id := i, cik := 1, filing_date := d, accession_number := a }

/-- Conflict key of `form_13f_holdings`: `(filing_id, symbol)` (line 121). -/
def hKey (r : HRec) : ℕ × String := (r.filing_id, r.symbol)

/-- The fallback normalisation (line 123): reformat the `filing_date` column
(`strftime`, modelled by an arbitrary `fmt` on the date encoding); the
conflict-key fields `filing_id` and `symbol` are untouched. -/
def reformatRec (fmt : ℕ → ℕ) (r : HRec) : HRec := { r with filing_date := fmt r.filing_date }

/-- The persistence step for one filing (lines 120-126): `try` the
`batch_upsert`; on rejection reformat the date column and retry once — the
retry stands outside any `try`, so its failure escapes as an exception
(`Except.error`).  `accepts` models which batches the Data Store accepts.
Returns the outcome together with the number of upsert attempts made. -/
def processFiling (accepts : List HRec → Bool) (fmt : ℕ → ℕ)
    (store : List HRec) (recs : List HRec) : Except Unit (List HRec) × ℕ :=
  if accepts recs then (.ok (batch_upsert hKey store recs), 1)
  else if accepts (recs.map (reformatRec fmt)) then
    (.ok (batch_upsert hKey store (recs.map (reformatRec fmt))), 2)
  else (.error (), 2)

/-- The holdings loop over an already-sliced filing list (lines 109-127):
fetch each accession's infotable from the Filing Source `src` (this fetch is
not guarded by any `try`), aggregate it, and persist.  Returns the final
store, the list of accessions fetched, and whether the run aborted with an
uncaught exception — in which case the remaining filings are never reached. -/
def runFilings (accepts : List HRec → Bool) (fmt : ℕ → ℕ) (src : String → List RawPos) :
    List QRow → List HRec → List HRec × List String × Bool
  | [], store => (store, [], false)
  | q :: rest, store =>
    match processFiling accepts fmt store (aggregate_holdings (src q.accession_number) q.filing_id q.filing_date) with
    | (.ok store2, _) =>
      let p := runFilings accepts fmt src rest store2
      (p.1, q.accession_number :: p.2.1, p.2.2)
    | (.error _, _) => (store, [q.accession_number], true)

/-- The whole holdings block: `for filing in latest_filings_list[10:]`
(line 109) — only rows from index 10 onward are processed. -/
def holdingsRun (accepts : List HRec → Bool) (fmt : ℕ → ℕ) (src : String → List RawPos)
    (qrows : List QRow) (store : List HRec) : List HRec × List String × Bool :=
  runFilings accepts fmt src (qrows.drop 10) store

def acc11 : String := "acc-11"

def acc12 : String := "acc-12"

def padAcc : String := "pad"

/-- Every fetch returns one small position. -/
def srcH : String → List RawPos := fun _ => [{ ticker := "T", value := 4, shares := 2 }]

/-- Twelve ranked filings; after the `[10:]` slice the loop sees the last two. -/
def qrowsC6 : List QRow :=
  List.replicate 10 (mkQ 0 0 padAcc) ++ [mkQ 11 111 acc11, mkQ 12 112 acc12]

/-- Claim C6, counterexample: with a Data Store that rejects every batch, the
first processed filing's fallback also fails and the resulting exception
aborts the whole run — the loop does *not* continue to the next filing
(`acc-12` is never fetched) and the run does not complete. -/
theorem c6_fallback_abort_counterexample :
    (holdingsRun (fun _ => false) (fun d => d) srcH qrowsC6 []).2.2 = true ∧
    (holdingsRun (fun _ => false) (fun d => d) srcH qrowsC6 []).2.1 = [acc11] ∧
    (holdingsRun (fun _ => false) (fun d => d) srcH qrowsC6 []).1 = [] := by
  decide

/-- Claim C6 (amended): when the Data Store rejects a holdings batch, the
pipeline catches the error and attempts the date-reformat normalisation
fallback exactly once (two upsert attempts in total); if the fallback batch is
accepted the loop continues to the next filing with the reformatted records
stored, but if the fallback also fails the exception propagates and aborts the
entire run, leaving every remaining filing unprocessed. -/
theorem c6_fallback_once (accepts : List HRec → Bool) (fmt : ℕ → ℕ) (src : String → List RawPos)
    (q : QRow) (rest : List QRow) (store : List HRec) (recs recs2 : List HRec)
    (hrecs : recs = aggregate_holdings (src q.accession_number) q.filing_id q.filing_date)
    (hrecs2 : recs2 = recs.map (reformatRec fmt))
    (hfail : accepts recs = false) :
    (processFiling accepts fmt store recs).2 = 2 ∧
    (accepts recs2 = true →
      runFilings accepts fmt src (q :: rest) store =
        ((runFilings accepts fmt src rest (batch_upsert hKey store recs2)).1,
         q.accession_number :: (runFilings accepts fmt src rest (batch_upsert hKey store recs2)).2.1,
         (runFilings accepts fmt src rest (batch_upsert hKey store recs2)).2.2)) ∧
    (accepts recs2 = false →
      runFilings accepts fmt src (q :: rest) store = (store, [q.accession_number], true)) := by
  subst hrecs
  subst hrecs2
  refine ⟨?_, ?_, ?_⟩
  · unfold processFiling
    rw [hfail]
    split
    next h => exact absurd h (by simp)
    next => split <;> rfl
  · intro h2
    simp [runFilings, processFiling, hfail, h2]
  · intro h2
    simp [runFilings, processFiling, hfail, h2]

/-- Witness for `c6_fallback_once`: a store rejecting everything makes one
filing's failure abort the run. -/
theorem c6_fallback_once_witness :
    runFilings (fun _ => false) (fun d => d) srcH [mkQ 11 111 acc11] [] = ([], [acc11], true) :=
  (c6_fallback_once (fun _ => false) (fun d => d) srcH (mkQ 11 111 acc11) [] [] _ _ rfl rfl rfl).2.2 rfl

def acc15 : String := "acc-15"

/-- The 11th ranked filing's infotable: ticker `X` appears twice. -/
def srcC10 : String → List RawPos :=
  fun a => if a = acc15 then
    [{ ticker := "X", value := 5, shares := 1 }, { ticker := "X", value := 7, shares := 2 }]
  else []

/-- Eleven ranked filings: the first ten (never processed thanks to the
`[10:]` slice) include filing_id 30; the eleventh has filing_id 15 and a
repeated ticker. -/
def qrowsC10 : List QRow :=
  [ mkQ 1 201 padAcc, mkQ 2 202 padAcc, mkQ 30 203 padAcc, mkQ 4 204 padAcc, mkQ 5 205 padAcc
  , mkQ 6 206 padAcc, mkQ 7 207 padAcc, mkQ 8 208 padAcc, mkQ 9 209 padAcc, mkQ 10 210 padAcc
  , mkQ 15 211 acc15 ]

/-- Claim C10, code bug: the fetch-frame half of the claim holds — only the
11th filing's accession is ever fetched — but the write-frame half fails:
because `groupby(...).sum()` sums the pre-attached `filing_id` column (claim
C2), filing 15's double-position ticker produces a record with
`filing_id = 2 * 15 = 30`, which is upserted and lands in the stored holdings
of filing 30, one of the ten filings the slice was supposed to leave
untouched. -/
theorem c10_filing_id_leak :
    (holdingsRun (fun _ => true) (fun d => d) srcC10 qrowsC10 []).2.1 = [acc15] ∧
    (∀ q ∈ qrowsC10.take 10,
      q.accession_number ∉ (holdingsRun (fun _ => true) (fun d => d) srcC10 qrowsC10 []).2.1) ∧
    (30 : ℕ) ∈ (qrowsC10.take 10).map (fun q => q.filing_id) ∧
    (holdingsRun (fun _ => true) (fun d => d) srcC10 qrowsC10 []).1.filter
      (fun r => decide (r.filing_id = 30)) ≠ [] := by
  decide

/-- Descending order on `filing_date`: the `ORDER BY filing_date DESC` of the
ranking query's window (src/main.py line 91).  There is no tie-breaking key. -/
def dateDesc (a b : QRow) : Prop := b.filing_date ≤ a.filing_date

instance : DecidableRel dateDesc := fun a b => inferInstanceAs (Decidable (b.filing_date ≤ a.filing_date))

instance : IsTotal QRow dateDesc := ⟨fun a b => Nat.le_total b.filing_date a.filing_date⟩

instance : IsTrans QRow dateDesc := ⟨fun _ _ _ h1 h2 => Nat.le_trans h2 h1⟩

/-- The window rows kept for one `cik`: its rows in engine order, ranked by
`filing_date` descending (stable in scan order, since the ORDER BY has no
further key), cut at rank `n`. -/
def cikGroup (n : ℕ) (tbl : List QRow) (c : ℕ) : List QRow :=
  (List.insertionSort dateDesc (tbl.filter (fun r => decide (r.cik = c)))).take n

def perCik (n : ℕ) (tbl : List QRow) : List ℕ → List QRow
  | [] => []
  | c :: cs => cikGroup n tbl c ++ perCik n tbl cs

/-- The ranking query `latest_filings` (src/main.py lines 84-104): per
distinct `cik`, the rows with `ROW_NUMBER() <= n`; the script's SQL hardcodes
`n = 2`.  The input list order models the physical row order the engine
scans, which the query does not constrain — `ORDER BY filing_date DESC` has
no tie-breaking column, so rows with equal dates are ranked in scan order. -/
def latest_filings (n : ℕ) (tbl : List QRow) : List QRow :=
  perCik n tbl ((tbl.map (fun r => r.cik)).dedup)

theorem mem_cikGroup_cik {n : ℕ} {tbl : List QRow} {c : ℕ} {r : QRow}
    (h : r ∈ cikGroup n tbl c) : r.cik = c := by
  have h1 := List.mem_of_mem_take h
  have h2 : r ∈ tbl.filter (fun x => decide (x.cik = c)) :=
    ((List.perm_insertionSort dateDesc _).mem_iff).mp h1
  exact of_decide_eq_true (List.mem_filter.mp h2).2

theorem mem_perCik (n : ℕ) (tbl : List QRow) :
    ∀ (cs : List ℕ) (r : QRow), r ∈ perCik n tbl cs ↔ ∃ c ∈ cs, r ∈ cikGroup n tbl c := by
  intro cs
  induction cs with
  | nil => intro r; simp [perCik]
  | cons c cs ih =>
    intro r
    show r ∈ cikGroup n tbl c ++ perCik n tbl cs ↔ _
    rw [List.mem_append, ih]
    constructor
    · rintro (h | ⟨d, hd, hr⟩)
      · exact ⟨c, List.mem_cons_self c cs, h⟩
      · exact ⟨d, List.mem_cons_of_mem c hd, hr⟩
    · rintro ⟨d, hd, hr⟩
      rcases List.mem_cons.mp hd with rfl | hd2
      · exact Or.inl hr
      · exact Or.inr ⟨d, hd2, hr⟩

theorem filter_perCik_not_mem {n : ℕ} {tbl : List QRow} {c : ℕ} :
    ∀ cs : List ℕ, c ∉ cs →
      (perCik n tbl cs).filter (fun r => decide (r.cik = c)) = [] := by
  intro cs
  induction cs with
  | nil => intro _; rfl
  | cons d ds ih =>
    intro h
    have hdc : d ≠ c := fun hdc => h (by rw [← hdc]; exact List.mem_cons_self d ds)
    show (cikGroup n tbl d ++ perCik n tbl ds).filter (fun r => decide (r.cik = c)) = []
    rw [List.filter_append, ih (fun hc => h (List.mem_cons_of_mem d hc)), List.append_nil]
    rw [List.filter_eq_nil_iff]
    intro a ha
    rw [mem_cikGroup_cik ha]
    simp [hdc]

theorem length_filter_perCik {n : ℕ} {tbl : List QRow} {c : ℕ} :
    ∀ cs : List ℕ, cs.Nodup →
      ((perCik n tbl cs).filter (fun r => decide (r.cik = c))).length ≤ n := by
  intro cs
  induction cs with
  | nil => intro _; simp [perCik]
  | cons d ds ih =>
    intro hnd
    show ((cikGroup n tbl d ++ perCik n tbl ds).filter (fun r => decide (r.cik = c))).length ≤ n
    rw [List.filter_append, List.length_append]
    by_cases hdc : d = c
    · subst hdc
      rw [filter_perCik_not_mem ds (List.nodup_cons.mp hnd).1]
      simp only [List.length_nil, Nat.add_zero]
      exact le_trans (List.length_filter_le _ _) (List.length_take_le n _)
    · have h1 : (cikGroup n tbl d).filter (fun r => decide (r.cik = c)) = [] := by
        rw [List.filter_eq_nil_iff]
        intro a ha
        rw [mem_cikGroup_cik ha]
        simp [hdc]
      rw [h1]
      simp only [List.length_nil, Nat.zero_add]
      exact ih (List.nodup_cons.mp hnd).2

/-- Claim C7 (amended): `latest_filings` returns at most `n` rows per distinct
`cik` (the script fixes `n = 2` in the SQL), and any row of the table that is
strictly more recent than a returned row of the same `cik` is itself
returned.  Because the ORDER BY has no tie-breaking column, ties in
`filing_date` are resolved by the engine's scan order, which the query does
not fix — so two calls are not guaranteed to return the identical sequence
(see the counterexample). -/
theorem c7_rank_bound_recency (n : ℕ) (tbl : List QRow) (c : ℕ) :
    ((latest_filings n tbl).filter (fun r => decide (r.cik = c))).length ≤ n ∧
    ∀ r ∈ latest_filings n tbl, ∀ s ∈ tbl, s.cik = r.cik → r.filing_date < s.filing_date →
      s ∈ latest_filings n tbl := by
  constructor
  · exact length_filter_perCik _ (List.nodup_dedup _)
  · intro r hr s hs hcik hdate
    rcases (mem_perCik n tbl _ r).mp hr with ⟨c2, hc2, hrg⟩
    have hrc : r.cik = c2 := mem_cikGroup_cik hrg
    have hsf : s ∈ tbl.filter (fun x => decide (x.cik = c2)) :=
      List.mem_filter.mpr ⟨hs, decide_eq_true (by rw [hcik, hrc])⟩
    have hsL : s ∈ List.insertionSort dateDesc (tbl.filter (fun x => decide (x.cik = c2))) :=
      ((List.perm_insertionSort dateDesc _).mem_iff).mpr hsf
    by_cases hstake : s ∈ (List.insertionSort dateDesc (tbl.filter (fun x => decide (x.cik = c2)))).take n
    · exact (mem_perCik n tbl _ s).mpr ⟨c2, hc2, hstake⟩
    · have hsdrop : s ∈ (List.insertionSort dateDesc (tbl.filter (fun x => decide (x.cik = c2)))).drop n := by
        rcases List.mem_append.mp (by
          rw [List.take_append_drop n (List.insertionSort dateDesc (tbl.filter (fun x => decide (x.cik = c2))))]
          exact hsL) with h | h
        · exact absurd h hstake
        · exact h
      have hsorted : List.Sorted dateDesc
          (List.insertionSort dateDesc (tbl.filter (fun x => decide (x.cik = c2)))) :=
        List.sorted_insertionSort dateDesc _
      rw [← List.take_append_drop n
        (List.insertionSort dateDesc (tbl.filter (fun x => decide (x.cik = c2))))] at hsorted
      have hcross := (List.pairwise_append.mp hsorted).2.2 r hrg s hsdrop
      exact absurd hdate (not_lt.mpr hcross)

/-- Three filings of one institution sharing one `filing_date`. -/
def qra : QRow := mkQ 41 5 padAcc

def qrb : QRow := mkQ 42 5 padAcc

def qrc : QRow := mkQ 43 5 padAcc

def qtblA : List QRow := [qra, qrb, qrc]

def qtblB : List QRow := [qrc, qrb, qra]

/-- Claim C7, counterexample: the same underlying data (one table is a
permutation of the other — SQL tables are unordered) served in two different
scan orders makes `latest_filings 2` return two different sequences, because
the ORDER BY breaks `filing_date` ties by scan order.  The query alone does
not make ties deterministic. -/
theorem c7_tie_counterexample :
    qtblA.Perm qtblB ∧ latest_filings 2 qtblA ≠ latest_filings 2 qtblB := by
  constructor
  · exact (List.reverse_perm qtblA).symm
  · decide

def qd1 : QRow := mkQ 51 5 padAcc

def qd2 : QRow := mkQ 52 9 padAcc

/-- Witness for `c7_rank_bound_recency`: in a two-row table the strictly more
recent same-cik row is also returned. -/
theorem c7_rank_bound_recency_witness :
    qd2 ∈ latest_filings 2 [qd1, qd2] :=
  (c7_rank_bound_recency 2 [qd1, qd2] 1).2 qd1 (by decide) qd2 (by decide) (by decide) (by decide)
